import Mathlib

/-!
Verification of the CryptoAutoDeduct repository: a shallow embedding of the
in-memory persistence store (src/server/storage.ts), the HTTP DELETE route
handler (src/server/routes.ts), the mocked wallet adapter
(src/client/src/lib/web3.ts) and the deduction workflow controller
(src/client/src/contexts/DeductionContext.tsx), followed by theorems that
settle the testable properties of the specification.

Conventions of the embedding:
* JavaScript numbers that hold integers (ids, counters, epoch milliseconds)
  are modelled as Int; decimal values as Rat.
* JavaScript Map objects are modelled as association lists in insertion
  order: set replaces an existing key in place or appends at the end,
  delete removes the entry, values lists entries in insertion order.
* Effectful calls to Date.now / new Date() take the current time as an
  explicit argument; Promise-returning methods are modelled as plain
  functions since no store operation suspends.
* JavaScript string falsiness (the empty string is falsy under the
  logical-or operator) is modelled by jsOrString.
-/

namespace CryptoAutoDeduct

/-- Models the JavaScript expression `s || dflt` for an optional string
field: undefined and the empty string are falsy, everything else is kept. -/
def jsOrString (s : Option String) (dflt : String) : String :=
  match s with
  | none => dflt
  | some v => if v = "" then dflt else v

/-- ECMAScript toLowerCase on one character of the ASCII range (wallet
addresses are hexadecimal strings, on which this is the whole story). -/
def charToLower (c : Char) : Char :=
  if ('A' ≤ c) && (c ≤ 'Z') then Char.ofNat (c.toNat + 32) else c

/-- ECMAScript String.prototype.toLowerCase on ASCII strings. -/
def toLowerJS (s : String) : String :=
  String.mk (s.data.map charToLower)

/-- Whitespace skipped by the ECMAScript numeric parsers. -/
def isJsSpace (c : Char) : Bool :=
  c == ' ' || c == '\t' || c == '\n' || c == '\r'

/-- Value of a list of decimal digit characters, most significant first. -/
def decDigitsVal (ds : List Char) : Nat :=
  ds.foldl (fun a c => 10 * a + (c.toNat - 48)) 0

/-- Hexadecimal digit recogniser for the parseInt 0x prefix rule. -/
def isHexDigitChar (c : Char) : Bool :=
  c.isDigit || (('a' ≤ c) && (c ≤ 'f')) || (('A' ≤ c) && (c ≤ 'F'))

/-- Value of one hexadecimal digit character. -/
def hexDigitVal (c : Char) : Nat :=
  if c.isDigit then c.toNat - 48
  else if ('a' ≤ c) && (c ≤ 'f') then c.toNat - 87
  else c.toNat - 55

/-- Value of a list of hexadecimal digit characters, most significant first. -/
def hexDigitsVal (ds : List Char) : Nat :=
  ds.foldl (fun a c => 16 * a + hexDigitVal c) 0

/-- Magnitude part of ECMAScript parseInt with no radix argument: a 0x/0X
prefix switches to hexadecimal, otherwise the longest decimal digit prefix
is taken; no digit at all yields NaN, modelled as none. -/
def parseIntBody (cs : List Char) : Option Nat :=
  match cs with
  | '0' :: c :: r =>
    if c == 'x' || c == 'X' then
      let hs := r.takeWhile isHexDigitChar
      if hs.isEmpty then none else some (hexDigitsVal hs)
    else
      some (decDigitsVal (('0' :: c :: r).takeWhile Char.isDigit))
  | _ =>
    let ds := cs.takeWhile Char.isDigit
    if ds.isEmpty then none else some (decDigitsVal ds)

/-- Models ECMAScript parseInt(s) as used by the route handlers: leading
whitespace, an optional sign, then the longest integer prefix; none models
NaN. -/
def parseIntJS (s : String) : Option Int :=
  let cs := s.toList.dropWhile isJsSpace
  match cs with
  | '-' :: r => (parseIntBody r).map (fun n => -(n : Int))
  | '+' :: r => (parseIntBody r).map (fun n => (n : Int))
  | _ => (parseIntBody cs).map (fun n => (n : Int))

/-- Magnitude part of ECMAScript parseFloat on the decimal literals this
application passes (digits, an optional decimal point, more digits; the
exponent and Infinity forms are never produced by the UI and are not
modelled): none models NaN. -/
def parseFloatBody (cs : List Char) : Option Rat :=
  let ip := cs.takeWhile Char.isDigit
  let rest := cs.dropWhile Char.isDigit
  match rest with
  | '.' :: r2 =>
    let fp := r2.takeWhile Char.isDigit
    if ip.isEmpty && fp.isEmpty then none
    else some ((decDigitsVal ip : Rat) + (decDigitsVal fp : Rat) / ((10 : Rat) ^ fp.length))
  | _ => if ip.isEmpty then none else some ((decDigitsVal ip : Rat))

/-- Models ECMAScript parseFloat(s) as used by the form validation:
leading whitespace, an optional sign, then the longest decimal prefix;
none models NaN. -/
def parseFloatJS (s : String) : Option Rat :=
  let cs := s.toList.dropWhile isJsSpace
  match cs with
  | '-' :: r => (parseFloatBody r).map (fun q => -q)
  | '+' :: r => parseFloatBody r
  | _ => parseFloatBody cs

/-! ## Data model (@shared/schema)

Timestamps are epoch milliseconds as Int.  In the drizzle-zod insert
schemas a column with a database default is optional; the store code only
ever inspects that optionality for status (deductions) and date / txHash
(transactions), which are therefore the Option-typed fields below. -/

/-- Row of the users table. -/
structure User where
  id : Int
  username : String
  password : String
deriving DecidableEq

/-- Payload of insertUserSchema. -/
structure InsertUser where
  username : String
  password : String
deriving DecidableEq

/-- Row of the scheduled_deductions table. -/
structure ScheduledDeduction where
  id : Int
  userId : Int
  walletAddress : String
  amount : String
  tokenSymbol : String
  tokenAddress : String
  interval : String
  duration : String
  startDate : Int
  status : String
  createdAt : Int
deriving DecidableEq

/-- Payload of insertScheduledDeductionSchema (id and createdAt omitted;
status optional, defaulted by the store). -/
structure InsertScheduledDeduction where
  userId : Int
  walletAddress : String
  amount : String
  tokenSymbol : String
  tokenAddress : String
  interval : String
  duration : String
  startDate : Int
  status : Option String
deriving DecidableEq

/-- Row of the transactions table. -/
structure Transaction where
  id : Int
  deductionId : Int
  walletAddress : String
  amount : String
  tokenSymbol : String
  tokenAddress : String
  status : String
  date : Int
  txHash : String
deriving DecidableEq

/-- Payload of insertTransactionSchema (id omitted; date and txHash
optional, defaulted by the store). -/
structure InsertTransaction where
  deductionId : Int
  walletAddress : String
  amount : String
  tokenSymbol : String
  tokenAddress : String
  status : String
  date : Option Int
  txHash : Option String
deriving DecidableEq

/-! ## JavaScript Map model -/

/-- A JavaScript Map with integer keys, as an association list in
insertion order. -/
abbrev JsMap (α : Type) := List (Int × α)

/-- Map.get: the value at a key, none when absent. -/
def mapGet {α : Type} (m : JsMap α) (k : Int) : Option α :=
  (m.find? (fun e => e.1 == k)).map Prod.snd

/-- Map.has. -/
def mapHas {α : Type} (m : JsMap α) (k : Int) : Bool :=
  (mapGet m k).isSome

/-- Map.set: replace the entry for an existing key in place (a JavaScript
Map never holds a key twice, so replacing every occurrence agrees with
replacing the one occurrence), otherwise append at the end. -/
def mapSet {α : Type} (m : JsMap α) (k : Int) (v : α) : JsMap α :=
  if mapHas m k then m.map (fun e => if e.1 == k then (k, v) else e)
  else m ++ [(k, v)]

/-- Map.delete: whether the key was present, and the map without it. -/
def mapDeleteRet {α : Type} (m : JsMap α) (k : Int) : Bool × JsMap α :=
  (mapHas m k, m.eraseP (fun e => e.1 == k))

/-- Map.values in insertion order. -/
def mapValues {α : Type} (m : JsMap α) : List α :=
  m.map Prod.snd

/-! ## Persistence store (src/server/storage.ts, class MemStorage) -/

/-- The three collections and the three id counters of MemStorage. -/
structure MemStorage where
  users : JsMap User
  scheduledDeductions : JsMap ScheduledDeduction
  transactions : JsMap Transaction
  userId : Int
  deductionId : Int
  transactionId : Int
deriving DecidableEq

/-- The MemStorage constructor: empty maps, all counters at 1. -/
def MemStorage.init : MemStorage :=
  { users := [], scheduledDeductions := [], transactions := []
    userId := 1, deductionId := 1, transactionId := 1 }

/-- getUser(id). -/
def MemStorage.getUser (s : MemStorage) (id : Int) : Option User :=
  mapGet s.users id

/-- getUserByUsername(username): first exact match over the values. -/
def MemStorage.getUserByUsername (s : MemStorage) (username : String) : Option User :=
  (mapValues s.users).find? (fun u => u.username == username)

/-- createUser(insertUser): take the counter as id, increment it, store
the record, return it. -/
def MemStorage.createUser (s : MemStorage) (iu : InsertUser) : User × MemStorage :=
  let id := s.userId
  let user : User := { id := id, username := iu.username, password := iu.password }
  (user, { s with users := mapSet s.users id user, userId := s.userId + 1 })

/-- getScheduledDeductions(walletAddress): values whose wallet address
matches the query lower-cased on both sides. -/
def MemStorage.getScheduledDeductions (s : MemStorage) (walletAddress : String) :
    List ScheduledDeduction :=
  (mapValues s.scheduledDeductions).filter
    (fun d => toLowerJS d.walletAddress == toLowerJS walletAddress)

/-- getScheduledDeduction(id). -/
def MemStorage.getScheduledDeduction (s : MemStorage) (id : Int) :
    Option ScheduledDeduction :=
  mapGet s.scheduledDeductions id

/-- createScheduledDeduction(deduction): take the counter as id, increment,
createdAt := now, status defaulted to pending when absent or empty
(JavaScript logical-or), store, return. -/
def MemStorage.createScheduledDeduction (s : MemStorage)
    (ded : InsertScheduledDeduction) (now : Int) :
    ScheduledDeduction × MemStorage :=
  let id := s.deductionId
  let newDeduction : ScheduledDeduction :=
    { id := id, userId := ded.userId, walletAddress := ded.walletAddress
      amount := ded.amount, tokenSymbol := ded.tokenSymbol
      tokenAddress := ded.tokenAddress, interval := ded.interval
      duration := ded.duration, startDate := ded.startDate
      status := jsOrString ded.status "pending", createdAt := now }
  (newDeduction,
   { s with scheduledDeductions := mapSet s.scheduledDeductions id newDeduction
            deductionId := s.deductionId + 1 })

/-- Partial&lt;InsertScheduledDeduction&gt;: every patchable field optional
(id and createdAt are not part of the insert schema and cannot be
patched). -/
structure DeductionPatch where
  userId : Option Int := none
  walletAddress : Option String := none
  amount : Option String := none
  tokenSymbol : Option String := none
  tokenAddress : Option String := none
  interval : Option String := none
  duration : Option String := none
  startDate : Option Int := none
  status : Option String := none
deriving DecidableEq

/-- The spread merge of updateScheduledDeduction: a field present in the
patch overwrites, an absent field keeps the prior value. -/
def applyPatch (d : ScheduledDeduction) (p : DeductionPatch) : ScheduledDeduction :=
  { d with
    userId := p.userId.getD d.userId
    walletAddress := p.walletAddress.getD d.walletAddress
    amount := p.amount.getD d.amount
    tokenSymbol := p.tokenSymbol.getD d.tokenSymbol
    tokenAddress := p.tokenAddress.getD d.tokenAddress
    interval := p.interval.getD d.interval
    duration := p.duration.getD d.duration
    startDate := p.startDate.getD d.startDate
    status := p.status.getD d.status }

/-- updateScheduledDeduction(id, updates): not-found sentinel when the id
is absent, otherwise store and return the merged record. -/
def MemStorage.updateScheduledDeduction (s : MemStorage) (id : Int)
    (p : DeductionPatch) : Option ScheduledDeduction × MemStorage :=
  match mapGet s.scheduledDeductions id with
  | none => (none, s)
  | some d =>
    let updated := applyPatch d p
    (some updated,
     { s with scheduledDeductions := mapSet s.scheduledDeductions id updated })

/-- deleteScheduledDeduction(id): Map.delete. -/
def MemStorage.deleteScheduledDeduction (s : MemStorage) (id : Int) :
    Bool × MemStorage :=
  let r := mapDeleteRet s.scheduledDeductions id
  (r.1, { s with scheduledDeductions := r.2 })

/-- Insert one transaction into a list already sorted by descending date,
before the first element with an earlier-or-equal date.  This is the
stable positioning of the ECMAScript sort with comparator
b.date minus a.date. -/
def insertTxDesc (t : Transaction) : List Transaction → List Transaction
  | [] => [t]
  | u :: us => if u.date ≤ t.date then t :: u :: us else u :: insertTxDesc t us

/-- Stable sort by descending date (insertion sort; stability makes it
agree with the ECMAScript stable Array.prototype.sort). -/
def sortTxDesc : List Transaction → List Transaction
  | [] => []
  | t :: ts => insertTxDesc t (sortTxDesc ts)

/-- getTransactions(walletAddress): case-insensitive wallet match, sorted
by descending date. -/
def MemStorage.getTransactions (s : MemStorage) (walletAddress : String) :
    List Transaction :=
  sortTxDesc ((mapValues s.transactions).filter
    (fun t => toLowerJS t.walletAddress == toLowerJS walletAddress))

/-- createTransaction(transaction): take the counter as id, increment,
date defaulted to now and txHash to the empty string (JavaScript
logical-or), store, return. -/
def MemStorage.createTransaction (s : MemStorage) (t : InsertTransaction)
    (now : Int) : Transaction × MemStorage :=
  let id := s.transactionId
  let newTransaction : Transaction :=
    { id := id, deductionId := t.deductionId, walletAddress := t.walletAddress
      amount := t.amount, tokenSymbol := t.tokenSymbol
      tokenAddress := t.tokenAddress, status := t.status
      date := t.date.getD now, txHash := jsOrString t.txHash "" }
  (newTransaction,
   { s with transactions := mapSet s.transactions id newTransaction
            transactionId := s.transactionId + 1 })

/-! ## HTTP API layer (src/server/routes.ts), DELETE /api/deductions/:id -/

/-- HTTP outcome of the delete-deduction route. -/
inductive DeleteResponse where
  | badRequest
  | notFound
  | noContent
  | serverError
deriving DecidableEq

/-- The DELETE /api/deductions/:id handler: parseInt the path parameter
(NaN gives 400), look the id up (absence gives 404), delete (success gives
204, a false return gives 500). -/
def deleteDeductionRoute (s : MemStorage) (idParam : String) :
    DeleteResponse × MemStorage :=
  match parseIntJS idParam with
  | none => (DeleteResponse.badRequest, s)
  | some id =>
    match s.getScheduledDeduction id with
    | none => (DeleteResponse.notFound, s)
    | some _ =>
      let r := s.deleteScheduledDeduction id
      if r.1 then (DeleteResponse.noContent, r.2)
      else (DeleteResponse.serverError, r.2)

/-! ## Wallet adapter (src/client/src/lib/web3.ts, class Web3Service)

Only the state scheduleDeduction and cancelDeduction inspect is modelled:
the nullable deductionContract and signer handles (both set by connect and
cleared by disconnect), the nullable selected token address, the nullable
erc20Contract handle, and the supported-token table of the active chain.
The ethers.utils.parseUnits call of scheduleDeduction is executed live
(only its result feeds the commented-out contract invocation) and throws
on malformed amounts, with the surrounding catch rethrowing, so its
parseFixed core is modelled below, including its error messages. -/

/-- JavaScript falsiness of a nullable string: null, undefined and the
empty string are falsy. -/
def isFalsyStr (s : Option String) : Bool :=
  match s with
  | none => true
  | some v => v == ""

/-- Models the JavaScript expression `n || dflt` for an optional number
field: undefined and zero are falsy. -/
def jsOrNat (n : Option Nat) (dflt : Nat) : Nat :=
  match n with
  | none => dflt
  | some v => if v = 0 then dflt else v

/-- Decidable equality of Except results, for evaluating the adapter on
concrete inputs. -/
instance {ε α : Type} [DecidableEq ε] [DecidableEq α] :
    DecidableEq (Except ε α) := fun x y =>
  match x, y with
  | Except.error a, Except.error b =>
    if h : a = b then isTrue (h ▸ rfl)
    else isFalse (fun hc => h (Except.error.inj hc))
  | Except.error _, Except.ok _ => isFalse (fun hc => Except.noConfusion hc)
  | Except.ok _, Except.error _ => isFalse (fun hc => Except.noConfusion hc)
  | Except.ok a, Except.ok b =>
    if h : a = b then isTrue (h ▸ rfl)
    else isFalse (fun hc => h (Except.ok.inj hc))

/-- A character admitted by the parseFixed input shape (a digit or a
decimal point). -/
def isFixedChar (c : Char) : Bool :=
  c.isDigit || c == '.'

/-- String.prototype.split on the decimal point, over character lists. -/
def splitOnDot : List Char → List (List Char)
  | [] => [[]]
  | '.' :: r => [] :: splitOnDot r
  | c :: r =>
    match splitOnDot r with
    | [] => [[c]]
    | g :: gs => (c :: g) :: gs

/-- The trailing-zero trim parseFixed applies to the fractional part. -/
def trimTrailingZeros (fr : List Char) : List Char :=
  (fr.reverse.dropWhile (fun c => c == '0')).reverse

/-- The whole/fraction assembly of ethers parseFixed: default empty parts
to 0, trim trailing zeros of the fraction, reject a fraction longer than
the precision, pad with zeros up to the precision, and combine. -/
def parseFixedParts (w f : List Char) (decimals : Nat) : Except String Int :=
  let whole := if w.isEmpty then ['0'] else w
  let fraction := if f.isEmpty then ['0'] else f
  let fraction := trimTrailingZeros fraction
  if decimals < fraction.length then
    Except.error "fractional component exceeds decimals"
  else
    let fraction := if fraction.isEmpty then ['0'] else fraction
    let fraction := fraction ++ List.replicate (decimals - fraction.length) '0'
    Except.ok ((decDigitsVal whole : Int) * (10 : Int) ^ decimals
      + (decDigitsVal fraction : Int))

/-- The sign-stripped body of ethers parseFixed: a lone decimal point is
rejected, more than one decimal point is rejected, otherwise the parts
are assembled. -/
def parseUnitsMag (cs : List Char) (decimals : Nat) : Except String Int :=
  if cs = ['.'] then Except.error "missing value"
  else
    match splitOnDot cs with
    | [w] => parseFixedParts w [] decimals
    | [w, f] => parseFixedParts w f decimals
    | _ => Except.error "too many decimal points"

/-- Models ethers.utils.parseUnits(value, decimals) (the parseFixed core
of ethers v5): the value must be an optional minus sign followed by at
least one digit or decimal point, and the fractional part must fit the
precision; the result is the amount in the token's smallest unit, an
error models the thrown exception. -/
def parseUnits (value : String) (decimals : Nat) : Except String Int :=
  match value.data with
  | '-' :: r =>
    if r.isEmpty || !(r.all isFixedChar) then
      Except.error "invalid decimal value"
    else
      match parseUnitsMag r decimals with
      | Except.error e => Except.error e
      | Except.ok n => Except.ok (-n)
  | cs =>
    if cs.isEmpty || !(cs.all isFixedChar) then
      Except.error "invalid decimal value"
    else parseUnitsMag cs decimals

/-- One entry of the supported-token table. -/
structure TokenInfo where
  symbol : String
  name : String
  decimals : Nat
  address : String
deriving DecidableEq

/-- The adapter state scheduleDeduction and cancelDeduction read; a Bool
field models presence of the corresponding nullable handle. -/
structure Web3Service where
  deductionContract : Bool
  signer : Bool
  tokenAddress : Option String
  erc20Contract : Bool
  supportedTokens : List TokenInfo
deriving DecidableEq

/-- Step 4 of scheduleDeduction: the duration in days, with the
indefinite choice (none) fixed at ten years. -/
def durationToDays (durationInMonths : Option Int) : Int :=
  match durationInMonths with
  | none => 365 * 10
  | some m => m * 30

/-- Steps 1-2 of scheduleDeduction: the supported-token lookup by
lower-cased address and the JavaScript-falsy fallback of the declared
decimals to 18. -/
def Web3Service.scheduleDecimals (svc : Web3Service) : Nat :=
  let tokenInfo := svc.supportedTokens.find?
    (fun t => toLowerJS t.address == toLowerJS (svc.tokenAddress.getD ""))
  jsOrNat (tokenInfo.map TokenInfo.decimals) 18

/-- scheduleDeduction(amount, intervalInDays, durationInMonths,
startDateTimestamp): throws when no wallet is connected, then when the
bound token address is JavaScript-falsy or no token contract handle
exists; then the executed parseUnits conversion of the amount may throw,
rethrown by the catch; otherwise the contract call is commented out and
a synthetic hash (the argument mockHash stands for the randomly
generated 64-hex-digit string) is returned.  The intermediate
duration-in-days value is durationToDays. -/
def Web3Service.scheduleDeduction (svc : Web3Service) (amount : String)
    (intervalInDays : Int) (durationInMonths : Option Int)
    (startDateTimestamp : Int) (mockHash : String) : Except String String :=
  if !svc.deductionContract || !svc.signer then
    Except.error "Wallet not connected"
  else if isFalsyStr svc.tokenAddress || !svc.erc20Contract then
    Except.error "No token selected. Please select a token for the deduction."
  else
    match parseUnits amount svc.scheduleDecimals with
    | Except.error e => Except.error e
    | Except.ok amountInTokenUnits =>
      let _ := amountInTokenUnits
      let _ := intervalInDays
      let _ := startDateTimestamp
      let _ := durationToDays durationInMonths
      Except.ok mockHash

/-- cancelDeduction(deductionId): throws when no wallet is connected,
otherwise the simulated cancellation always succeeds. -/
def Web3Service.cancelDeduction (svc : Web3Service) (deductionId : Int) :
    Except String Bool :=
  if !svc.deductionContract || !svc.signer then
    Except.error "Wallet not connected"
  else
    let _ := deductionId
    Except.ok true

/-! ## Deduction workflow controller
(src/client/src/contexts/DeductionContext.tsx) -/

/-- The DeductionInterval union type. -/
inductive DeductionInterval where
  | daily
  | weekly
  | biweekly
  | monthly
deriving DecidableEq

/-- The string value each interval constant denotes. -/
def DeductionInterval.toStr : DeductionInterval → String
  | .daily => "daily"
  | .weekly => "weekly"
  | .biweekly => "biweekly"
  | .monthly => "monthly"

/-- getIntervalInDays. -/
def getIntervalInDays : DeductionInterval → Int
  | .daily => 1
  | .weekly => 7
  | .biweekly => 14
  | .monthly => 30

/-- The draft form state (duration ranges over the strings 3, 6, 12,
indefinite by its type). -/
structure DeductionFormData where
  amount : String
  interval : Option DeductionInterval
  duration : String
  startDate : String
deriving DecidableEq

/-- Outcome of submitDeduction: which notification was shown, or that the
approval confirmation step was opened.  The function performs no store or
adapter call in the source, so the outcome is all there is. -/
inductive SubmitOutcome where
  | notConnectedError
  | invalidAmountError
  | noIntervalError
  | openedModal
deriving DecidableEq

/-- submitDeduction: reject a missing wallet, then an absent amount or an
amount whose parseFloat value is at most zero (NaN compares false and
passes), then a missing interval; otherwise open the approval modal. -/
def submitDeduction (address : Option String) (fd : DeductionFormData) :
    SubmitOutcome :=
  if jsOrString address "" = "" then SubmitOutcome.notConnectedError
  else if fd.amount = "" ||
      (match parseFloatJS fd.amount with
       | some q => decide (q ≤ 0)
       | none => false) then SubmitOutcome.invalidAmountError
  else if fd.interval.isNone then SubmitOutcome.noIntervalError
  else SubmitOutcome.openedModal

/-- The side-effecting calls approveDeduction issues, in order, with the
payload each one carries. -/
inductive ApproveStep where
  | scheduleCall (amount : String) (intervalDays : Int)
      (durationMonths : Option Int) (startTs : Int)
  | postDeduction (d : InsertScheduledDeduction)
  | postTransaction (t : InsertTransaction)
deriving DecidableEq

/-- The environment the approval flow runs against: the result of each of
the three awaited calls (the schedule call yielding a hash, the deduction
POST yielding the saved id, the transaction POST). -/
structure ApproveOutcomes where
  scheduleRes : Except String String
  createDeductionRes : Except String Int
  createTransactionRes : Except String Unit

/-- What approveDeduction leaves behind: the calls it issued in order,
the final notification (true for success, false for error, with the
message; none when the guard returned early), and the form state. -/
structure ApproveResult where
  steps : List ApproveStep
  notificationOut : Option (Bool × String)
  formAfter : DeductionFormData
deriving DecidableEq

/-- approveDeduction.  dateMs stands for new Date(str).getTime();
defaultForm for the module-level defaultFormData constant resetForm
restores; balanceSymbol for balance?.symbol and selectedToken for the
wallet context token selection; o for the outcome of each awaited call;
now for the Date value of step 3.  The early guard returns with nothing
done when the address is falsy or the interval unset; afterwards the
three calls run in sequence inside one try block whose catch shows an
error notification and skips the success notification and the form
reset. -/
def approveDeduction (dateMs : String → Int) (defaultForm : DeductionFormData)
    (address : Option String) (balanceSymbol : Option String)
    (selectedToken : Option String) (fd : DeductionFormData)
    (o : ApproveOutcomes) (now : Int) : ApproveResult :=
  match address, fd.interval with
  | some a, some iv =>
    if a = "" then { steps := [], notificationOut := none, formAfter := fd }
    else
      let startTs := dateMs fd.startDate / 1000
      let durArg : Option Int :=
        if fd.duration = "indefinite" then none
        else some ((parseIntJS fd.duration).getD 0)
      let step1 := ApproveStep.scheduleCall fd.amount (getIntervalInDays iv)
        durArg startTs
      match o.scheduleRes with
      | Except.error e =>
        { steps := [step1], notificationOut := some (false, e), formAfter := fd }
      | Except.ok txHash =>
        let sym := jsOrString balanceSymbol "ETH"
        let dedPayload : InsertScheduledDeduction :=
          { userId := 1, walletAddress := a, amount := fd.amount
            tokenSymbol := sym, tokenAddress := selectedToken.getD ""
            interval := iv.toStr, duration := fd.duration
            startDate := dateMs fd.startDate, status := some "approved" }
        let step2 := ApproveStep.postDeduction dedPayload
        match o.createDeductionRes with
        | Except.error e =>
          { steps := [step1, step2], notificationOut := some (false, e)
            formAfter := fd }
        | Except.ok savedId =>
          let txPayload : InsertTransaction :=
            { deductionId := savedId, walletAddress := a, amount := fd.amount
              tokenSymbol := sym, tokenAddress := selectedToken.getD ""
              status := "success", date := some now, txHash := some txHash }
          let step3 := ApproveStep.postTransaction txPayload
          match o.createTransactionRes with
          | Except.error e =>
            { steps := [step1, step2, step3], notificationOut := some (false, e)
              formAfter := fd }
          | Except.ok _ =>
            { steps := [step1, step2, step3]
              notificationOut := some (true, "Your deduction has been set up successfully.")
              formAfter := defaultForm }
  | _, _ => { steps := [], notificationOut := none, formAfter := fd }

/-! ## Operation sequences over the deduction collection (for the id
invariant) -/

/-- An operation on the scheduled-deduction collection: a create (with
its payload and creation time) or a delete. -/
inductive StoreOp where
  | createDed (d : InsertScheduledDeduction) (now : Int)
  | deleteDed (id : Int)

/-- Run one operation for its state effect. -/
def runOp (s : MemStorage) : StoreOp → MemStorage
  | .createDed d now => (s.createScheduledDeduction d now).2
  | .deleteDed i => (s.deleteScheduledDeduction i).2

/-- Run a sequence of operations. -/
def runOps (s : MemStorage) : List StoreOp → MemStorage
  | [] => s
  | op :: ops => runOps (runOp s op) ops

/-- The ids handed out by the create operations of a sequence, in
creation order. -/
def assignedIds (s : MemStorage) : List StoreOp → List Int
  | [] => []
  | .createDed d now :: ops =>
    (s.createScheduledDeduction d now).1.id ::
      assignedIds (runOp s (.createDed d now)) ops
  | .deleteDed i :: ops => assignedIds (runOp s (.deleteDed i)) ops

/-- Number of creates in a sequence. -/
def countCreates : List StoreOp → Nat
  | [] => 0
  | .createDed _ _ :: ops => countCreates ops + 1
  | .deleteDed _ :: ops => countCreates ops

/-! ## Helper lemmas about the Map model -/

theorem mapGet_cons {α : Type} (e : Int × α) (m : JsMap α) (k : Int) :
    mapGet (e :: m) k = if e.1 == k then some e.2 else mapGet m k := by
  simp only [mapGet, List.find?_cons]
  cases h : e.1 == k <;> simp [h]

theorem mapGet_replace_self {α : Type} (m : JsMap α) (k : Int) (v : α)
    (h : mapHas m k = true) :
    mapGet (m.map (fun e => if e.1 == k then (k, v) else e)) k = some v := by
  induction m with
  | nil => simp [mapHas, mapGet] at h
  | cons e rest ih =>
    by_cases hk : e.1 = k
    · simp [mapGet_cons, hk]
    · have h2 : mapHas rest k = true := by
        simpa [mapHas, mapGet_cons, hk] using h
      simpa [mapGet_cons, hk] using ih h2

theorem mapGet_replace_ne {α : Type} (m : JsMap α) (k j : Int) (v : α)
    (h : j ≠ k) :
    mapGet (m.map (fun e => if e.1 == k then (k, v) else e)) j = mapGet m j := by
  induction m with
  | nil => rfl
  | cons e rest ih =>
    have ih2 : mapGet (List.map (fun e => if e.1 = k then (k, v) else e) rest) j
        = mapGet rest j := by simpa using ih
    by_cases hk : e.1 = k
    · have hkj : ¬ (k = j) := fun hh => h hh.symm
      simp [mapGet_cons, hk, hkj, ih2]
    · by_cases hj : e.1 = j <;> simp [mapGet_cons, hk, hj, h, ih2]

theorem mapGet_append_single_self {α : Type} (m : JsMap α) (k : Int) (v : α)
    (h : mapHas m k = false) :
    mapGet (m ++ [(k, v)]) k = some v := by
  induction m with
  | nil => simp [mapGet_cons, mapGet]
  | cons e rest ih =>
    by_cases hk : e.1 = k
    · simp [mapHas, mapGet_cons, hk] at h
    · have h2 : mapHas rest k = false := by
        simpa [mapHas, mapGet_cons, hk] using h
      simpa [mapGet_cons, hk] using ih h2

theorem mapGet_append_single_ne {α : Type} (m : JsMap α) (k j : Int) (v : α)
    (h : j ≠ k) :
    mapGet (m ++ [(k, v)]) j = mapGet m j := by
  induction m with
  | nil =>
    have : ¬ (k == j) := by simpa using (fun hh => h hh.symm)
    simp [mapGet_cons, mapGet, this]
  | cons e rest ih => simp [mapGet_cons, ih]

theorem mapGet_mapSet_self {α : Type} (m : JsMap α) (k : Int) (v : α) :
    mapGet (mapSet m k v) k = some v := by
  unfold mapSet
  cases h : mapHas m k with
  | true => simpa [h] using mapGet_replace_self m k v h
  | false => simpa [h] using mapGet_append_single_self m k v h

theorem mapGet_mapSet_ne {α : Type} (m : JsMap α) (k j : Int) (v : α)
    (h : j ≠ k) :
    mapGet (mapSet m k v) j = mapGet m j := by
  unfold mapSet
  cases hk : mapHas m k with
  | true => simpa [hk] using mapGet_replace_ne m k j v h
  | false => simpa [hk] using mapGet_append_single_ne m k j v h

theorem mapSet_fresh {α : Type} (m : JsMap α) (k : Int) (v : α)
    (h : mapGet m k = none) :
    mapSet m k v = m ++ [(k, v)] := by
  unfold mapSet
  simp [mapHas, h]

/-! ## Concrete fixtures used by the witness theorems -/

/-- A concrete deduction payload (mixed-case wallet address). -/
def dedIns1 : InsertScheduledDeduction :=
  { userId := 1, walletAddress := "0xAbC", amount := "10", tokenSymbol := "ETH"
    tokenAddress := "", interval := "monthly", duration := "3", startDate := 0
    status := none }

/-- A concrete transaction payload. -/
def txIns1 (w : String) (d : Int) : InsertTransaction :=
  { deductionId := 1, walletAddress := w, amount := "1", tokenSymbol := "ETH"
    tokenAddress := "", status := "success", date := some d, txHash := some "h" }

/-- A store holding one scheduled deduction (id 1, wallet 0xAbC). -/
def store1 : MemStorage := (MemStorage.init.createScheduledDeduction dedIns1 0).2

/-- The deduction record store1 holds. -/
def ded1 : ScheduledDeduction := (MemStorage.init.createScheduledDeduction dedIns1 0).1

/-! ## Claim theorems -/

/-- C1: for every wallet address A and store state,
getScheduledDeductions(A) returns exactly the stored deductions whose
walletAddress equals A case-insensitively (both sides lower-cased), and
the result does not depend on the casing of the query. -/
theorem getScheduledDeductions_spec (s : MemStorage) (A : String) :
    (∀ d : ScheduledDeduction,
        d ∈ s.getScheduledDeductions A ↔
          d ∈ mapValues s.scheduledDeductions ∧
            toLowerJS d.walletAddress = toLowerJS A) ∧
    (∀ B : String, toLowerJS A = toLowerJS B →
        s.getScheduledDeductions A = s.getScheduledDeductions B) := by
  constructor
  · intro d
    simp [MemStorage.getScheduledDeductions, List.mem_filter]
  · intro B h
    unfold MemStorage.getScheduledDeductions
    exact List.filter_congr (fun d _ => by rw [h])

/-- Witness for C1 at a concrete store: the mixed-case record is returned
for a lower-case query, and an upper-case query gives the same list. -/
theorem getScheduledDeductions_spec_witness :
    ded1 ∈ store1.getScheduledDeductions "0xabc" ∧
    store1.getScheduledDeductions "0xabc" = store1.getScheduledDeductions "0XABC" := by
  have h := getScheduledDeductions_spec store1 "0xabc"
  exact ⟨(h.1 ded1).mpr (by decide), h.2 "0XABC" (by decide)⟩

/-- The list start, start+1, ..., start+n-1 of expected deduction ids. -/
def idRange (start : Int) : Nat → List Int
  | 0 => []
  | n + 1 => start :: idRange (start + 1) n

theorem mem_idRange_le {start : Int} {n : Nat} {x : Int}
    (h : x ∈ idRange start n) : start ≤ x := by
  induction n generalizing start with
  | zero => simp [idRange] at h
  | succ n ih =>
    simp only [idRange, List.mem_cons] at h
    rcases h with h | h
    · omega
    · have := ih h
      omega

theorem idRange_pairwise_lt (start : Int) (n : Nat) :
    (idRange start n).Pairwise (· < ·) := by
  induction n generalizing start with
  | zero => simp [idRange]
  | succ n ih =>
    refine List.Pairwise.cons (fun x hx => ?_) (ih (start + 1))
    have := mem_idRange_le hx
    omega

theorem assignedIds_eq_idRange (ops : List StoreOp) :
    ∀ s : MemStorage,
      assignedIds s ops = idRange s.deductionId (countCreates ops) := by
  induction ops with
  | nil => intro s; rfl
  | cons op ops ih =>
    intro s
    cases op with
    | createDed d now =>
      simp [assignedIds, countCreates, idRange, runOp,
        MemStorage.createScheduledDeduction, ih]
    | deleteDed i =>
      simp [assignedIds, countCreates, runOp,
        MemStorage.deleteScheduledDeduction, ih]

/-- C2: over any sequence of creates interleaved with deletes starting
from the fresh store, the ids handed out by the creates are 1, 2, ... in
creation order: pairwise distinct and strictly increasing, starting at 1,
unaffected by the interleaved deletes. -/
theorem createScheduledDeduction_ids (ops : List StoreOp) :
    assignedIds MemStorage.init ops = idRange 1 (countCreates ops) ∧
    (assignedIds MemStorage.init ops).Pairwise (· < ·) ∧
    (assignedIds MemStorage.init ops).Nodup := by
  have h := assignedIds_eq_idRange ops MemStorage.init
  have hlt : (assignedIds MemStorage.init ops).Pairwise (· < ·) := by
    rw [h]; exact idRange_pairwise_lt 1 (countCreates ops)
  exact ⟨h, hlt, hlt.imp (fun hab => ne_of_lt hab)⟩

/-! ## Sorting lemmas for getTransactions -/

theorem mem_insertTxDesc (t u : Transaction) (l : List Transaction) :
    u ∈ insertTxDesc t l ↔ u = t ∨ u ∈ l := by
  induction l with
  | nil => simp [insertTxDesc]
  | cons x xs ih =>
    simp only [insertTxDesc]
    by_cases h : x.date ≤ t.date
    · simp [h]
    · rw [if_neg h, List.mem_cons, ih, List.mem_cons]
      tauto

theorem pairwise_insertTxDesc (t : Transaction) (l : List Transaction)
    (h : l.Pairwise (fun a b => b.date ≤ a.date)) :
    (insertTxDesc t l).Pairwise (fun a b => b.date ≤ a.date) := by
  induction l with
  | nil => simp [insertTxDesc]
  | cons x xs ih =>
    rw [List.pairwise_cons] at h
    unfold insertTxDesc
    by_cases hle : x.date ≤ t.date
    · rw [if_pos hle]
      refine List.Pairwise.cons (fun u hu => ?_) (List.Pairwise.cons h.1 h.2)
      rcases List.mem_cons.mp hu with hu | hu
      · exact hu ▸ hle
      · exact le_trans (h.1 u hu) hle
    · rw [if_neg hle]
      refine List.Pairwise.cons (fun u hu => ?_) (ih h.2)
      rcases (mem_insertTxDesc t u xs).mp hu with hu | hu
      · exact hu ▸ le_of_lt (lt_of_not_le hle)
      · exact h.1 u hu

theorem sortTxDesc_pairwise (l : List Transaction) :
    (sortTxDesc l).Pairwise (fun a b => b.date ≤ a.date) := by
  induction l with
  | nil => simp [sortTxDesc]
  | cons t ts ih => exact pairwise_insertTxDesc t (sortTxDesc ts) ih

theorem mem_sortTxDesc (l : List Transaction) (u : Transaction) :
    u ∈ sortTxDesc l ↔ u ∈ l := by
  induction l with
  | nil => simp [sortTxDesc]
  | cons t ts ih =>
    simp only [sortTxDesc]
    rw [mem_insertTxDesc, ih, List.mem_cons]

theorem sortTxDesc_append_last (t : Transaction) (l : List Transaction)
    (h : ∀ u ∈ l, u.date < t.date) :
    sortTxDesc (l ++ [t]) = t :: sortTxDesc l := by
  induction l with
  | nil => rfl
  | cons x xs ih =>
    have hx : x.date < t.date := h x (List.mem_cons_self x xs)
    have hxs : ∀ u ∈ xs, u.date < t.date := fun u hu => h u (List.mem_cons_of_mem x hu)
    show insertTxDesc x (sortTxDesc (xs ++ [t])) = t :: insertTxDesc x (sortTxDesc xs)
    rw [ih hxs]
    simp only [insertTxDesc]
    rw [if_neg (not_le.mpr hx)]

/-- A store holding one transaction (wallet w, date 5). -/
def storeTx : MemStorage := (MemStorage.init.createTransaction (txIns1 "w" 5) 0).2

/-- Counterexample to C3 as stated: with a stored transaction of the same
wallet and the same date (so no stored transaction has a later date), the
stable descending sort keeps the earlier record first, and the newly
created transaction is not the head of getTransactions. -/
theorem getTransactions_tie_cex :
    ((storeTx.createTransaction (txIns1 "w" 5) 0).1.date = 5 ∧
     ∀ u ∈ mapValues storeTx.transactions, ¬ (5 < u.date)) ∧
    ((storeTx.createTransaction (txIns1 "w" 5) 0).2.getTransactions "w").head? ≠
      some (storeTx.createTransaction (txIns1 "w" 5) 0).1 := by decide

/-- C3 (amended): getTransactions returns exactly the case-insensitive
wallet matches sorted by descending date, and a freshly created
transaction is the head of the immediately following getTransactions for
its wallet provided every already stored transaction of that wallet has a
strictly earlier date (on an equal date the stable sort keeps the older
record first). -/
theorem getTransactions_spec (s : MemStorage) (t : InsertTransaction) (now : Int)
    (hfresh : mapGet s.transactions s.transactionId = none)
    (hlate : ∀ u ∈ mapValues s.transactions,
        toLowerJS u.walletAddress = toLowerJS t.walletAddress →
          u.date < t.date.getD now) :
    ((s.createTransaction t now).2.getTransactions t.walletAddress).head? =
      some (s.createTransaction t now).1 ∧
    (∀ w u, u ∈ (s.createTransaction t now).2.getTransactions w ↔
        u ∈ mapValues (s.createTransaction t now).2.transactions ∧
          toLowerJS u.walletAddress = toLowerJS w) ∧
    (∀ w, ((s.createTransaction t now).2.getTransactions w).Pairwise
        (fun a b => b.date ≤ a.date)) := by
  have hset : (s.createTransaction t now).2.transactions
      = s.transactions ++ [(s.transactionId, (s.createTransaction t now).1)] := by
    simpa [MemStorage.createTransaction] using
      mapSet_fresh s.transactions s.transactionId _ hfresh
  refine ⟨?_, ?_, ?_⟩
  · rw [MemStorage.getTransactions, hset]
    rw [show mapValues (s.transactions ++ [(s.transactionId, (s.createTransaction t now).1)])
        = mapValues s.transactions ++ [(s.createTransaction t now).1] from by
      simp [mapValues]]
    rw [List.filter_append]
    rw [show List.filter
          (fun u => toLowerJS u.walletAddress == toLowerJS t.walletAddress)
          [(s.createTransaction t now).1]
        = [(s.createTransaction t now).1] from by
      simp [MemStorage.createTransaction]]
    rw [sortTxDesc_append_last]
    · rfl
    · intro u hu
      rw [List.mem_filter] at hu
      have hw : toLowerJS u.walletAddress = toLowerJS t.walletAddress := by
        simpa using hu.2
      have : u.date < t.date.getD now := hlate u hu.1 hw
      simpa [MemStorage.createTransaction] using this
  · intro w u
    rw [MemStorage.getTransactions, mem_sortTxDesc, List.mem_filter]
    simp
  · intro w
    exact sortTxDesc_pairwise _

/-- Witness for C3 at a concrete store: one older transaction (date 5),
a new one with date 10 for the same wallet in different casing. -/
theorem getTransactions_spec_witness :
    ((storeTx.createTransaction (txIns1 "W" 10) 0).2.getTransactions "W").head? =
      some (storeTx.createTransaction (txIns1 "W" 10) 0).1 :=
  (getTransactions_spec storeTx (txIns1 "W" 10) 0 (by decide) (by decide)).1

/-! ## Update and delete -/

/-- The partial payload of the C4 update: only status, set to cancelled. -/
def cancelPatch : DeductionPatch := { status := some "cancelled" }

/-- C4: updating a present id with the status-only cancel patch returns
the prior record with only status replaced, stores exactly that record,
leaves every other id and the other collections and counters untouched;
an absent id returns the not-found sentinel and leaves the store
entirely unchanged. -/
theorem updateScheduledDeduction_cancel (s : MemStorage) (i : Int) :
    (s.updateScheduledDeduction i cancelPatch).1 =
      (mapGet s.scheduledDeductions i).map
        (fun d => { d with status := "cancelled" }) ∧
    mapGet (s.updateScheduledDeduction i cancelPatch).2.scheduledDeductions i =
      (s.updateScheduledDeduction i cancelPatch).1 ∧
    (∀ j, j ≠ i →
      mapGet (s.updateScheduledDeduction i cancelPatch).2.scheduledDeductions j =
        mapGet s.scheduledDeductions j) ∧
    (s.updateScheduledDeduction i cancelPatch).2.users = s.users ∧
    (s.updateScheduledDeduction i cancelPatch).2.transactions = s.transactions ∧
    (s.updateScheduledDeduction i cancelPatch).2.userId = s.userId ∧
    (s.updateScheduledDeduction i cancelPatch).2.deductionId = s.deductionId ∧
    (s.updateScheduledDeduction i cancelPatch).2.transactionId = s.transactionId ∧
    (mapGet s.scheduledDeductions i = none →
      (s.updateScheduledDeduction i cancelPatch).2 = s) := by
  cases h : mapGet s.scheduledDeductions i with
  | none => simp [MemStorage.updateScheduledDeduction, h]
  | some d =>
    refine ⟨?_, ?_, ?_, ?_, ?_, ?_, ?_, ?_, ?_⟩ <;>
      simp [MemStorage.updateScheduledDeduction, h, applyPatch, cancelPatch,
        mapGet_mapSet_self]
    intro j hj
    exact mapGet_mapSet_ne _ _ _ _ hj

/-- Witness for C4 at a concrete store (id 1 present, id 99 absent). -/
theorem updateScheduledDeduction_cancel_witness :
    mapGet ((store1.updateScheduledDeduction 1 cancelPatch).2).scheduledDeductions 2 =
      mapGet store1.scheduledDeductions 2 ∧
    (store1.updateScheduledDeduction 99 cancelPatch).2 = store1 := by
  refine ⟨(updateScheduledDeduction_cancel store1 1).2.2.1 2 (by decide), ?_⟩
  exact (updateScheduledDeduction_cancel store1 99).2.2.2.2.2.2.2.2 (by decide)

theorem mapGet_eraseKey_ne {α : Type} (m : JsMap α) (i j : Int) (h : j ≠ i) :
    mapGet (m.eraseP (fun e => e.1 == i)) j = mapGet m j := by
  induction m with
  | nil => rfl
  | cons e rest ih =>
    by_cases hk : e.1 = i
    · rw [List.eraseP_cons_of_pos (by simp [hk]), mapGet_cons]
      have : ¬ (e.1 = j) := by rw [hk]; exact fun hh => h hh.symm
      simp [this]
    · rw [List.eraseP_cons_of_neg (by simp [hk]), mapGet_cons, mapGet_cons, ih]

theorem eraseKey_absent {α : Type} (m : JsMap α) (i : Int)
    (h : mapGet m i = none) :
    m.eraseP (fun e => e.1 == i) = m := by
  apply List.eraseP_of_forall_not
  have hf : m.find? (fun e => e.1 == i) = none := by
    unfold mapGet at h
    exact Option.map_eq_none'.mp h
  exact List.find?_eq_none.mp hf

theorem length_eraseKey {α : Type} (m : JsMap α) (i : Int)
    (h : mapHas m i = true) :
    (m.eraseP (fun e => e.1 == i)).length + 1 = m.length := by
  induction m with
  | nil => simp [mapHas, mapGet] at h
  | cons e rest ih =>
    by_cases hk : e.1 = i
    · rw [List.eraseP_cons_of_pos (by simp [hk])]
      simp
    · have h2 : mapHas rest i = true := by
        simpa [mapHas, mapGet_cons, hk] using h
      rw [List.eraseP_cons_of_neg (by simp [hk])]
      simp only [List.length_cons]
      rw [ih h2]

theorem mapGet_eq_none_of_not_key {α : Type} (m : JsMap α) (i : Int)
    (h : i ∉ m.map Prod.fst) : mapGet m i = none := by
  induction m with
  | nil => rfl
  | cons e rest ih =>
    simp only [List.map_cons, List.mem_cons] at h
    push_neg at h
    rw [mapGet_cons]
    have : ¬ (e.1 = i) := fun hh => h.1 hh.symm
    simp [this]
    exact ih h.2

theorem mapGet_eraseKey_self_nodup {α : Type} (m : JsMap α) (i : Int)
    (hnd : (m.map Prod.fst).Nodup) :
    mapGet (m.eraseP (fun e => e.1 == i)) i = none := by
  induction m with
  | nil => rfl
  | cons e rest ih =>
    simp only [List.map_cons, List.nodup_cons] at hnd
    by_cases hk : e.1 = i
    · rw [List.eraseP_cons_of_pos (by simp [hk])]
      exact mapGet_eq_none_of_not_key rest i (hk ▸ hnd.1)
    · rw [List.eraseP_cons_of_neg (by simp [hk]), mapGet_cons]
      simp [hk]
      exact ih hnd.2

/-- C5: deleteScheduledDeduction returns whether the id was present; on
an absent id it returns false and leaves the store (collection, counter,
other collections) unchanged, so a subsequent getScheduledDeduction
still reports not-found; on a present id it returns true and removes
exactly that entry: every other id is unaffected, the length drops by
one, and, under the key uniqueness a JavaScript Map guarantees, the id
itself is gone. -/
theorem deleteScheduledDeduction_spec (s : MemStorage) (i : Int) :
    (s.deleteScheduledDeduction i).1 = mapHas s.scheduledDeductions i ∧
    (∀ j, j ≠ i → mapGet (s.deleteScheduledDeduction i).2.scheduledDeductions j
        = mapGet s.scheduledDeductions j) ∧
    (s.deleteScheduledDeduction i).2.deductionId = s.deductionId ∧
    (s.deleteScheduledDeduction i).2.users = s.users ∧
    (s.deleteScheduledDeduction i).2.transactions = s.transactions ∧
    (mapGet s.scheduledDeductions i = none →
      (s.deleteScheduledDeduction i).1 = false ∧
      (s.deleteScheduledDeduction i).2 = s ∧
      (s.deleteScheduledDeduction i).2.getScheduledDeduction i = none) ∧
    (∀ d, mapGet s.scheduledDeductions i = some d →
      (s.deleteScheduledDeduction i).1 = true ∧
      (s.deleteScheduledDeduction i).2.scheduledDeductions.length + 1
        = s.scheduledDeductions.length ∧
      ((s.scheduledDeductions.map Prod.fst).Nodup →
        (s.deleteScheduledDeduction i).2.getScheduledDeduction i = none)) := by
  refine ⟨rfl, ?_, rfl, rfl, rfl, ?_, ?_⟩
  · intro j hj
    exact mapGet_eraseKey_ne _ _ _ hj
  · intro h
    refine ⟨by simp [MemStorage.deleteScheduledDeduction, mapDeleteRet, mapHas, h], ?_, ?_⟩
    · simp [MemStorage.deleteScheduledDeduction, mapDeleteRet, eraseKey_absent _ _ h]
    · show mapGet (List.eraseP _ _) i = none
      rw [eraseKey_absent _ _ h]
      exact h
  · intro d h
    refine ⟨by simp [MemStorage.deleteScheduledDeduction, mapDeleteRet, mapHas, h], ?_, ?_⟩
    · exact length_eraseKey _ _ (by simp [mapHas, h])
    · intro hnd
      exact mapGet_eraseKey_self_nodup _ _ hnd

/-- Witness for C5 at a concrete store (id 99 absent, id 1 present). -/
theorem deleteScheduledDeduction_spec_witness :
    (store1.deleteScheduledDeduction 99).2 = store1 ∧
    (store1.deleteScheduledDeduction 1).1 = true ∧
    (store1.deleteScheduledDeduction 1).2.getScheduledDeduction 1 = none := by
  refine ⟨((deleteScheduledDeduction_spec store1 99).2.2.2.2.2.1 (by decide)).2.1, ?_, ?_⟩
  · exact ((deleteScheduledDeduction_spec store1 1).2.2.2.2.2.2 ded1 (by decide)).1
  · exact ((deleteScheduledDeduction_spec store1 1).2.2.2.2.2.2 ded1 (by decide)).2.2
      (by decide)

/-- Counterexample to C9 as stated: the path parameter 12abc is not a
numeral, yet the handler does not answer 400 (parseInt takes the numeric
prefix 12, which is absent, so it answers 404). -/
theorem deleteDeductionRoute_nonNumeric_cex :
    ("12abc".toList.all Char.isDigit = false) ∧
    (deleteDeductionRoute MemStorage.init "12abc").1 = DeleteResponse.notFound ∧
    ¬ (deleteDeductionRoute MemStorage.init "12abc").1 = DeleteResponse.badRequest := by
  decide

/-- C9 (amended): the DELETE handler answers 400 exactly when parseInt of
the path parameter is NaN; when the parameter parses to an id (also for
strings such as 12abc, whose numeric prefix 12 is used as the id) the
handler answers 404 on an absent id leaving the store unchanged, and 204
on a present id having removed exactly that deduction. -/
theorem deleteDeductionRoute_spec (s : MemStorage) (idParam : String) :
    (parseIntJS idParam = none →
      deleteDeductionRoute s idParam = (DeleteResponse.badRequest, s)) ∧
    (∀ id, parseIntJS idParam = some id →
      mapGet s.scheduledDeductions id = none →
      deleteDeductionRoute s idParam = (DeleteResponse.notFound, s)) ∧
    (∀ id d, parseIntJS idParam = some id →
      mapGet s.scheduledDeductions id = some d →
      (deleteDeductionRoute s idParam).1 = DeleteResponse.noContent ∧
      (deleteDeductionRoute s idParam).2.scheduledDeductions.length + 1
        = s.scheduledDeductions.length ∧
      (∀ j, j ≠ id →
        mapGet (deleteDeductionRoute s idParam).2.scheduledDeductions j
          = mapGet s.scheduledDeductions j) ∧
      (deleteDeductionRoute s idParam).2.users = s.users ∧
      (deleteDeductionRoute s idParam).2.transactions = s.transactions) := by
  refine ⟨?_, ?_, ?_⟩
  · intro h
    simp [deleteDeductionRoute, h]
  · intro id hp hg
    simp [deleteDeductionRoute, hp, MemStorage.getScheduledDeduction, hg]
  · intro id d hp hg
    have hroute : deleteDeductionRoute s idParam = (DeleteResponse.noContent,
        (s.deleteScheduledDeduction id).2) := by
      simp [deleteDeductionRoute, hp, MemStorage.getScheduledDeduction, hg,
        MemStorage.deleteScheduledDeduction, mapDeleteRet, mapHas]
    rw [hroute]
    refine ⟨rfl, ?_, ?_, rfl, rfl⟩
    · exact length_eraseKey _ _ (by simp [mapHas, hg])
    · intro j hj
      exact mapGet_eraseKey_ne _ _ _ hj

/-- Witness for C9 at concrete inputs: a digit-free parameter gives 400,
an absent id gives 404 with the store unchanged, a present id gives 204. -/
theorem deleteDeductionRoute_spec_witness :
    deleteDeductionRoute MemStorage.init "abc"
      = (DeleteResponse.badRequest, MemStorage.init) ∧
    deleteDeductionRoute MemStorage.init "7"
      = (DeleteResponse.notFound, MemStorage.init) ∧
    (deleteDeductionRoute store1 "1").1 = DeleteResponse.noContent := by
  refine ⟨(deleteDeductionRoute_spec MemStorage.init "abc").1 (by decide),
    (deleteDeductionRoute_spec MemStorage.init "7").2.1 7 (by decide) (by decide),
    ((deleteDeductionRoute_spec store1 "1").2.2 1 ded1 (by decide) (by decide)).1⟩

/-! ## Adapter and workflow claims -/

/-- A connected adapter with a bound token. -/
def svcConn : Web3Service :=
  { deductionContract := true, signer := true, tokenAddress := some "0xT"
    erc20Contract := true, supportedTokens := [] }

/-- A disconnected adapter. -/
def svcDisc : Web3Service :=
  { deductionContract := false, signer := false, tokenAddress := none
    erc20Contract := false, supportedTokens := [] }

/-- Counterexample to C7 as stated: with the session connected and a
token bound, scheduleDeduction of the malformed amount abc does not
return a synthetic transaction identifier — the executed parseUnits
conversion throws and the catch rethrows its message. -/
theorem web3_schedule_malformed_cex :
    (svcConn.deductionContract && svcConn.signer) = true ∧
    (isFalsyStr svcConn.tokenAddress || !svcConn.erc20Contract) = false ∧
    svcConn.scheduleDeduction "abc" 30 none 0 "0xhash"
      = Except.error "invalid decimal value" ∧
    svcConn.scheduleDeduction "abc" 30 none 0 "0xhash"
      ≠ Except.ok "0xhash" := by decide

/-- C7 (amended): scheduleDeduction fails with the not-connected error
exactly when the session handles are missing, and with the no-token
error when connected but the bound token address is JavaScript-falsy or
the token contract handle is missing; when connected with a token bound,
the executed parseUnits conversion of the amount rethrows its error for
a malformed or excess-precision amount, and only for an amount it
accepts is the synthetic transaction identifier returned; the internal
duration conversion maps indefinite to 3650 days; cancelDeduction fails
with not-connected exactly when the session handles are missing and
otherwise reports success for every id. -/
theorem web3_schedule_cancel_spec (svc : Web3Service) (amount : String)
    (intervalInDays : Int) (dm : Option Int) (startTs : Int)
    (mockHash : String) (id : Int) :
    ((svc.deductionContract && svc.signer) = false →
      svc.scheduleDeduction amount intervalInDays dm startTs mockHash
        = Except.error "Wallet not connected" ∧
      svc.cancelDeduction id = Except.error "Wallet not connected") ∧
    ((svc.deductionContract && svc.signer) = true →
      svc.cancelDeduction id = Except.ok true ∧
      ((isFalsyStr svc.tokenAddress || !svc.erc20Contract) = true →
        svc.scheduleDeduction amount intervalInDays dm startTs mockHash
          = Except.error
              "No token selected. Please select a token for the deduction.") ∧
      ((isFalsyStr svc.tokenAddress || !svc.erc20Contract) = false →
        (∀ e, parseUnits amount svc.scheduleDecimals = Except.error e →
          svc.scheduleDeduction amount intervalInDays dm startTs mockHash
            = Except.error e) ∧
        (∀ u, parseUnits amount svc.scheduleDecimals = Except.ok u →
          svc.scheduleDeduction amount intervalInDays dm startTs mockHash
            = Except.ok mockHash))) ∧
    durationToDays none = 3650 := by
  refine ⟨?_, ?_, by decide⟩
  · intro h
    have hd : (!svc.deductionContract || !svc.signer) = true := by
      cases hc : svc.deductionContract <;> cases hs : svc.signer <;> simp_all
    constructor <;> simp [Web3Service.scheduleDeduction, Web3Service.cancelDeduction, hd]
  · intro h
    have hd : (!svc.deductionContract || !svc.signer) = false := by
      cases hc : svc.deductionContract <;> cases hs : svc.signer <;> simp_all
    refine ⟨by simp [Web3Service.cancelDeduction, hd], ?_, ?_⟩
    · intro ht
      simp [Web3Service.scheduleDeduction, hd, ht]
    · intro ht
      constructor
      · intro e hp
        simp [Web3Service.scheduleDeduction, hd, ht, hp]
      · intro u hp
        simp [Web3Service.scheduleDeduction, hd, ht, hp]

/-- Witness for C7 at concrete adapter states: a well-formed amount on a
connected adapter yields the synthetic hash, a disconnected adapter
rejects cancellation. -/
theorem web3_schedule_cancel_spec_witness :
    svcConn.scheduleDeduction "10" 30 none 0 "0xhash" = Except.ok "0xhash" ∧
    svcDisc.cancelDeduction 1 = Except.error "Wallet not connected" :=
  ⟨(((web3_schedule_cancel_spec svcConn "10" 30 none 0 "0xhash" 1).2.1
      (by decide)).2.2 (by decide)).2 (10 * 10 ^ 18) (by decide),
   ((web3_schedule_cancel_spec svcDisc "10" 30 none 0 "0xhash" 1).1
      (by decide)).2⟩

/-- Counterexample to C8 as stated: the amount abc does not denote a
positive number (its parseFloat is NaN), yet submit opens the
confirmation step, because NaN compared against zero is false. -/
theorem submitDeduction_nan_cex :
    parseFloatJS "abc" = none ∧
    submitDeduction (some "0xA")
      { amount := "abc", interval := some DeductionInterval.daily
        duration := "3", startDate := "2025-01-01" }
      = SubmitOutcome.openedModal := by decide

/-- C8 (amended): with a connected wallet, submit opens the confirmation
step exactly when the amount is nonempty and its parseFloat value is not
at most zero — a NaN parse, that is a non-numeric amount, passes this
check — and an interval is chosen; in every other case an error is
reported and the confirmation step does not open; the not-connected
error never occurs. -/
theorem submitDeduction_spec (a : String) (fd : DeductionFormData)
    (ha : a ≠ "") :
    (submitDeduction (some a) fd = SubmitOutcome.openedModal ↔
      (fd.amount ≠ "" ∧
       (∀ q, parseFloatJS fd.amount = some q → ¬ (q ≤ 0)) ∧
       fd.interval ≠ none)) ∧
    submitDeduction (some a) fd ≠ SubmitOutcome.notConnectedError := by
  constructor
  · cases hp : parseFloatJS fd.amount with
    | none =>
      by_cases h1 : fd.amount = "" <;> by_cases h3 : fd.interval = none <;>
        simp [submitDeduction, jsOrString, ha, h1, h3, hp]
    | some q =>
      by_cases hq : q ≤ 0 <;> by_cases h1 : fd.amount = "" <;>
        by_cases h3 : fd.interval = none <;>
        simp [submitDeduction, jsOrString, ha, h1, h3, hp, hq] <;>
        exact lt_of_not_le hq
  · simp only [submitDeduction, jsOrString]
    split_ifs with h0 <;> simp_all

/-- Witness for C8 at a concrete connected state and valid form. -/
theorem submitDeduction_spec_witness :
    submitDeduction (some "0xA")
      { amount := "10", interval := some DeductionInterval.monthly
        duration := "3", startDate := "2025-01-01" }
      = SubmitOutcome.openedModal := by
  have h := submitDeduction_spec "0xA"
    { amount := "10", interval := some DeductionInterval.monthly
      duration := "3", startDate := "2025-01-01" } (by decide)
  refine h.1.mpr ⟨by decide, ?_, by decide⟩
  intro q hq
  have h10 : parseFloatJS "10" = some (10 : Rat) := by decide
  rw [h10] at hq
  cases hq
  decide

/-- C6: with a connected wallet and a chosen interval, the approval flow
performs the schedule call, then the deduction POST with status approved,
then the transaction POST carrying the id returned by the deduction POST,
the hash returned by the schedule call and status success, in that order;
a failure at any step stops before the later steps, surfaces that
failure's message as an error notification, and leaves the draft form
unchanged (no rollback of completed steps). -/
theorem approveDeduction_spec (dateMs : String → Int) (df : DeductionFormData)
    (a : String) (bs tok : Option String) (fd : DeductionFormData)
    (o : ApproveOutcomes) (now : Int) (iv : DeductionInterval)
    (ha : a ≠ "") (hiv : fd.interval = some iv) :
    (∀ e, o.scheduleRes = Except.error e →
      (∃ am ivd dm ts,
        (approveDeduction dateMs df (some a) bs tok fd o now).steps
          = [ApproveStep.scheduleCall am ivd dm ts]) ∧
      (approveDeduction dateMs df (some a) bs tok fd o now).notificationOut
        = some (false, e) ∧
      (approveDeduction dateMs df (some a) bs tok fd o now).formAfter = fd) ∧
    (∀ h e, o.scheduleRes = Except.ok h →
      o.createDeductionRes = Except.error e →
      (∃ am ivd dm ts d,
        (approveDeduction dateMs df (some a) bs tok fd o now).steps
          = [ApproveStep.scheduleCall am ivd dm ts, ApproveStep.postDeduction d] ∧
        d.status = some "approved") ∧
      (approveDeduction dateMs df (some a) bs tok fd o now).notificationOut
        = some (false, e) ∧
      (approveDeduction dateMs df (some a) bs tok fd o now).formAfter = fd) ∧
    (∀ h sid e, o.scheduleRes = Except.ok h →
      o.createDeductionRes = Except.ok sid →
      o.createTransactionRes = Except.error e →
      (∃ am ivd dm ts d t,
        (approveDeduction dateMs df (some a) bs tok fd o now).steps
          = [ApproveStep.scheduleCall am ivd dm ts, ApproveStep.postDeduction d,
             ApproveStep.postTransaction t] ∧
        d.status = some "approved" ∧ t.deductionId = sid ∧
        t.txHash = some h ∧ t.status = "success") ∧
      (approveDeduction dateMs df (some a) bs tok fd o now).notificationOut
        = some (false, e) ∧
      (approveDeduction dateMs df (some a) bs tok fd o now).formAfter = fd) ∧
    (∀ h sid, o.scheduleRes = Except.ok h →
      o.createDeductionRes = Except.ok sid →
      o.createTransactionRes = Except.ok () →
      (∃ am ivd dm ts d t,
        (approveDeduction dateMs df (some a) bs tok fd o now).steps
          = [ApproveStep.scheduleCall am ivd dm ts, ApproveStep.postDeduction d,
             ApproveStep.postTransaction t] ∧
        d.status = some "approved" ∧ t.deductionId = sid ∧
        t.txHash = some h ∧ t.status = "success") ∧
      (∃ msg, (approveDeduction dateMs df (some a) bs tok fd o now).notificationOut
        = some (true, msg))) := by
  refine ⟨?_, ?_, ?_, ?_⟩
  · intro e h1
    simp only [approveDeduction, hiv, ha, h1]
    exact ⟨⟨_, _, _, _, rfl⟩, rfl, rfl⟩
  · intro h e h1 h2
    simp only [approveDeduction, hiv, ha, h1, h2]
    exact ⟨⟨_, _, _, _, _, rfl, rfl⟩, rfl, rfl⟩
  · intro h sid e h1 h2 h3
    simp only [approveDeduction, hiv, ha, h1, h2, h3]
    exact ⟨⟨_, _, _, _, _, _, rfl, rfl, rfl, rfl, rfl⟩, rfl, rfl⟩
  · intro h sid h1 h2 h3
    simp only [approveDeduction, hiv, ha, h1, h2, h3]
    exact ⟨⟨_, _, _, _, _, _, rfl, rfl, rfl, rfl, rfl⟩, _, rfl⟩

/-- A concrete draft form for the C6 witness. -/
def fdWit : DeductionFormData :=
  { amount := "10", interval := some DeductionInterval.monthly
    duration := "3", startDate := "2025-01-02" }

/-- Concrete outcomes for the C6 witness: step (a) succeeds, step (b)
fails. -/
def oWit : ApproveOutcomes :=
  { scheduleRes := Except.ok "0xh"
    createDeductionRes := Except.error "Failed to create deduction"
    createTransactionRes := Except.ok () }

/-- Witness for C6: with step (b) failing after step (a) succeeded, the
error notification carries the failure message and the draft form is
unchanged. -/
theorem approveDeduction_spec_witness :
    (approveDeduction (fun _ => 0) fdWit (some "0xA") (some "ETH")
        (some "0xT") fdWit oWit 0).notificationOut
      = some (false, "Failed to create deduction") ∧
    (approveDeduction (fun _ => 0) fdWit (some "0xA") (some "ETH")
        (some "0xT") fdWit oWit 0).formAfter = fdWit := by
  have h := approveDeduction_spec (fun _ => 0) fdWit "0xA" (some "ETH")
    (some "0xT") fdWit oWit 0 DeductionInterval.monthly (by decide) rfl
  have h2 := h.2.1 "0xh" "Failed to create deduction" rfl rfl
  exact ⟨h2.2.1, h2.2.2⟩

/-- C10: each create operation appends exactly one entry at the end of
its own collection (so every previously stored entry of that collection
is unchanged and still at its key) and leaves the other two collections
untouched. -/
theorem create_frame_spec (s : MemStorage) (iu : InsertUser)
    (din : InsertScheduledDeduction) (tin : InsertTransaction) (now : Int) :
    (mapGet s.users s.userId = none →
      (s.createUser iu).2.users = s.users ++ [(s.userId, (s.createUser iu).1)] ∧
      (s.createUser iu).2.scheduledDeductions = s.scheduledDeductions ∧
      (s.createUser iu).2.transactions = s.transactions) ∧
    (mapGet s.scheduledDeductions s.deductionId = none →
      (s.createScheduledDeduction din now).2.scheduledDeductions
        = s.scheduledDeductions
            ++ [(s.deductionId, (s.createScheduledDeduction din now).1)] ∧
      (s.createScheduledDeduction din now).2.users = s.users ∧
      (s.createScheduledDeduction din now).2.transactions = s.transactions) ∧
    (mapGet s.transactions s.transactionId = none →
      (s.createTransaction tin now).2.transactions
        = s.transactions ++ [(s.transactionId, (s.createTransaction tin now).1)] ∧
      (s.createTransaction tin now).2.users = s.users ∧
      (s.createTransaction tin now).2.scheduledDeductions
        = s.scheduledDeductions) := by
  refine ⟨?_, ?_, ?_⟩
  · intro h
    exact ⟨by simpa [MemStorage.createUser] using mapSet_fresh s.users s.userId _ h,
      rfl, rfl⟩
  · intro h
    exact ⟨by simpa [MemStorage.createScheduledDeduction] using
      mapSet_fresh s.scheduledDeductions s.deductionId _ h, rfl, rfl⟩
  · intro h
    exact ⟨by simpa [MemStorage.createTransaction] using
      mapSet_fresh s.transactions s.transactionId _ h, rfl, rfl⟩

/-- Witness for C10 at a concrete store. -/
theorem create_frame_spec_witness :
    (store1.createUser { username := "u", password := "p" }).2.scheduledDeductions
      = store1.scheduledDeductions ∧
    (store1.createScheduledDeduction dedIns1 0).2.transactions
      = store1.transactions ∧
    (store1.createTransaction (txIns1 "w" 5) 0).2.scheduledDeductions
      = store1.scheduledDeductions := by
  have h := create_frame_spec store1 { username := "u", password := "p" }
    dedIns1 (txIns1 "w" 5) 0
  exact ⟨(h.1 (by decide)).2.1, (h.2.1 (by decide)).2.2, (h.2.2 (by decide)).2.2⟩

end CryptoAutoDeduct
